import Mathlib

/-!
Shallow embedding of the statistical core of src/core/portfolio.py
(class Portfolio): return computation, sample covariance, Ledoit-Wolf
style shrinkage covariance, expected-return products and the
information-coefficient computation.

Numbers are modelled exactly: finite IEEE doubles become rationals, and
the special values nan, +inf, -inf are explicit constructors, because the
code relies on numpy float semantics (division by zero warns and yields
nan or an infinity instead of raising).  Python raising float division
(x / 0.0 raises ZeroDivisionError) is modelled by explicit error checks
at the exact lines where it occurs.
-/

namespace Covshrink

/- The Batteries rational arithmetic definitions are shipped
irreducible, which blocks elaborator-side evaluation of concrete
runs; restoring the default reducibility lets decide evaluate them. -/
attribute [local semireducible] Rat.mul Rat.inv Rat.add Rat.sub Rat.ofScientific

/-- An IEEE-style floating point value in exact arithmetic: a finite
value is an exact rational; nan, +inf and -inf are explicit.  The two
IEEE zeroes are identified (no computation below distinguishes them). -/
inductive FP where
  | fin (q : ℚ)
  | nan
  | pinf
  | ninf
deriving DecidableEq, Repr

/-- IEEE addition: nan propagates, opposite infinities give nan. -/
def FP.add : FP → FP → FP
  | .fin a, .fin b => .fin (a + b)
  | .nan, _ => .nan
  | _, .nan => .nan
  | .pinf, .ninf => .nan
  | .ninf, .pinf => .nan
  | .pinf, _ => .pinf
  | _, .pinf => .pinf
  | .ninf, _ => .ninf
  | _, .ninf => .ninf

/-- IEEE negation. -/
def FP.neg : FP → FP
  | .fin a => .fin (-a)
  | .nan => .nan
  | .pinf => .ninf
  | .ninf => .pinf

/-- IEEE subtraction. -/
def FP.sub (a b : FP) : FP := a.add b.neg

/-- IEEE multiplication: nan propagates, zero times infinity is nan. -/
def FP.mul : FP → FP → FP
  | .fin a, .fin b => .fin (a * b)
  | .nan, _ => .nan
  | _, .nan => .nan
  | .pinf, .pinf => .pinf
  | .pinf, .ninf => .ninf
  | .ninf, .pinf => .ninf
  | .ninf, .ninf => .pinf
  | .fin a, .pinf => if 0 < a then .pinf else if a < 0 then .ninf else .nan
  | .fin a, .ninf => if 0 < a then .ninf else if a < 0 then .pinf else .nan
  | .pinf, .fin a => if 0 < a then .pinf else if a < 0 then .ninf else .nan
  | .ninf, .fin a => if 0 < a then .ninf else if a < 0 then .pinf else .nan

/-- IEEE division (numpy semantics: division by zero yields nan for
0/0 and a signed infinity otherwise; it never raises).  The identified
zero behaves as +0. -/
def FP.div : FP → FP → FP
  | .nan, _ => .nan
  | _, .nan => .nan
  | .fin a, .fin b =>
      if b = 0 then (if a = 0 then .nan else if 0 < a then .pinf else .ninf)
      else .fin (a / b)
  | .fin _, .pinf => .fin 0
  | .fin _, .ninf => .fin 0
  | .pinf, .fin b => if b < 0 then .ninf else .pinf
  | .ninf, .fin b => if b < 0 then .pinf else .ninf
  | .pinf, _ => .nan
  | .ninf, _ => .nan

/-- IEEE less-than as a Bool: any comparison against nan is false. -/
def FP.lt : FP → FP → Bool
  | .fin a, .fin b => a < b
  | .nan, _ => false
  | _, .nan => false
  | .ninf, .fin _ => true
  | .ninf, .pinf => true
  | .fin _, .pinf => true
  | _, _ => false

/-- Python builtin min of two floats: min(a, b) keeps a unless b < a.
In particular min(1.0, nan) = 1.0 because nan < 1.0 is false. -/
def pymin (a b : FP) : FP := if FP.lt b a then b else a

/-- Python builtin max of two floats: max(a, b) keeps a unless b > a. -/
def pymax (a b : FP) : FP := if FP.lt a b then b else a

/-! ## Matrices

A numpy 2-D array is a rectangular list of row lists.  Out-of-range
reads default to nan; every theorem on matrices carries explicit
dimension hypotheses, so the defaults are never observed. -/

/-- A 2-D array of floating point values, stored by rows. -/
abbrev Mat := List (List FP)

/-- Entry i j of a matrix (row-major). -/
def ent (M : Mat) (i j : ℕ) : FP := (M.getD i []).getD j FP.nan

/-- Build an n-by-m matrix from an entry function. -/
def mkMat (n m : ℕ) (f : ℕ → ℕ → FP) : Mat :=
  (List.range n).map (fun i => (List.range m).map (f i))

/-- Fold-sum of a list of floats starting from the Python integer 0,
exactly the evaluation order of the builtin sum. -/
def fpSum (l : List FP) : FP := l.foldl FP.add (FP.fin 0)

/-- The Python idiom sum(sum(M)) on a 2-D numpy array with m columns:
the inner sum adds the rows as vectors starting from 0, giving the
vector of column sums, and the outer sum adds those up. -/
def pySumSum (M : Mat) (m : ℕ) : FP :=
  fpSum ((List.range m).map (fun j => fpSum (M.map (fun r => r.getD j FP.nan))))

/-- Scalar times matrix (np.dot of a scalar with an array, or the *
broadcast), entrywise on an n-by-m array. -/
def smulMat (s : FP) (M : Mat) (n m : ℕ) : Mat :=
  mkMat n m (fun i j => s.mul (ent M i j))

/-- Entrywise product of two n-by-m arrays. -/
def hadMul (A B : Mat) (n m : ℕ) : Mat :=
  mkMat n m (fun i j => (ent A i j).mul (ent B i j))

/-- Entrywise quotient of two n-by-m arrays. -/
def hadDiv (A B : Mat) (n m : ℕ) : Mat :=
  mkMat n m (fun i j => (ent A i j).div (ent B i j))

/-- Entrywise difference of two n-by-m arrays. -/
def matSub (A B : Mat) (n m : ℕ) : Mat :=
  mkMat n m (fun i j => (ent A i j).sub (ent B i j))

/-- Entrywise sum of two n-by-m arrays. -/
def matAdd (A B : Mat) (n m : ℕ) : Mat :=
  mkMat n m (fun i j => (ent A i j).add (ent B i j))

/-- Matrix divided by a scalar, entrywise on an n-by-m array. -/
def matDivScalar (M : Mat) (s : FP) (n m : ℕ) : Mat :=
  mkMat n m (fun i j => (ent M i j).div s)

/-- Transpose of a square n-by-n array. -/
def trM (M : Mat) (n : ℕ) : Mat := mkMat n n (fun i j => ent M j i)

/-- Elementwise square of an array (the numpy expression M ** 2.0),
preserving the row structure. -/
def sqM (M : Mat) : Mat := M.map (fun r => r.map (fun x => x.mul x))

/-- Elementwise cube of an array (the numpy expression M ** 3.0). -/
def cubeM (M : Mat) : Mat := M.map (fun r => r.map (fun x => (x.mul x).mul x))

/-- np.dot(A.T, B) for two arrays with the same number t of rows and n
columns each: the n-by-n matrix whose (i, j) entry is the sum over the
common rows of A[s][i] * B[s][j]. -/
def mmT (A B : Mat) (n : ℕ) : Mat :=
  mkMat n n (fun i j =>
    fpSum ((A.zip B).map (fun rr => (rr.1.getD i FP.nan).mul (rr.2.getD j FP.nan))))

/-! ## Python-level objects and errors

get_shrunk_covariance_matrix inspects the dynamic type of its argument
(portfolio.py lines 447-455) and then reads the pandas attributes
x.index and x.columns (lines 460-461), so the embedding distinguishes
DataFrame, ndarray, None and other inputs. -/

/-- The Python exceptions the embedded code can raise. -/
inductive PyErr where
  | valueError
  | attributeError
  | indexError
  | zeroDivisionError
  | insufficientPositionsError
deriving DecidableEq, Repr

/-- A pandas DataFrame carrying row labels, column labels and exact
rational data (finite floats). -/
structure DFrame where
  index : List String
  columns : List String
  data : List (List ℚ)
deriving DecidableEq, Repr

/-- A labelled result frame with floating point entries. -/
structure OutFrame where
  index : List String
  columns : List String
  data : Mat
deriving DecidableEq, Repr

/-- The dynamic type of the x argument of get_shrunk_covariance_matrix. -/
inductive PyObj where
  | dframe (d : DFrame)
  | ndarray (m : List (List ℚ))
  | pynone
  | otherObj
deriving DecidableEq, Repr

/-! ## The shrinkage pipeline (portfolio.py lines 463-494)

Each numbered stage below is one line of the source.  The pipeline is
parametric in the square-root function used for np.sqrt at line 470,
because exact rationals are not closed under square roots; every
concrete evaluation below instantiates it with exactSqrt on inputs
whose variances are perfect rational squares, where exactSqrt agrees
with the real square root. -/

/-- The largest k with k * k at most n, by a fuel-bounded scan (kept
structurally recursive so that concrete runs reduce inside the kernel). -/
def isqrt (n : ℕ) : ℕ :=
  (List.range (n + 1)).foldl (fun acc k => if k * k ≤ n then k else acc) 0

/-- Exact rational square root: correct (equal to the real square root)
whenever the numerator and denominator are perfect squares, which holds
for every concrete input used in this file. -/
def ratSqrt (q : ℚ) : ℚ := (isqrt q.num.toNat : ℚ) / (isqrt q.den : ℚ)

/-- np.sqrt on a float: nan on negative or nan input. -/
def exactSqrt : FP → FP
  | .fin q => if q < 0 then .nan else .fin (ratSqrt q)
  | .nan => .nan
  | .pinf => .pinf
  | .ninf => .nan

/-- Line 464: meanx = cov.mean(axis=0), the vector of column means;
numpy mean of an empty axis is nan (0 / 0 here). -/
def colMeanF (cov : Mat) (t j : ℕ) : FP :=
  (fpSum (cov.map (fun r => r.getD j FP.nan))).div (FP.fin t)

/-- Line 465: cov = cov - np.tile(meanx, (t, 1)), the demeaned t-by-n
data matrix, kept in row-list form. -/
def demeanM (cov : Mat) (t n : ℕ) : Mat :=
  cov.map (fun r => (List.range n).map (fun j => (r.getD j FP.nan).sub (colMeanF cov t j)))

/-- Line 467: sample = (1.0 / t) * np.dot(cov.T, cov).  The guard for
t = 0 (where Python raises ZeroDivisionError on 1.0 / t) lives in the
top-level pipeline, which only calls this with t >= 1. -/
def sampleM (cov : Mat) (t n : ℕ) : Mat :=
  smulMat (FP.fin (1 / (t : ℚ))) (mmT (demeanM cov t n) (demeanM cov t n) n) n n

/-- Lines 469-470: var = np.diag(sample), as a vector. -/
def varV (cov : Mat) (t n : ℕ) : List FP :=
  (List.range n).map (fun i => ent (sampleM cov t n) i i)

/-- Line 470: sqrtvar = np.sqrt(var). -/
def sqrtvarV (f : FP → FP) (cov : Mat) (t n : ℕ) : List FP :=
  (varV cov t n).map f

/-- Line 472: a = np.tile(sqrtvar, (n, 1)), the n-by-n matrix whose
row i is sqrtvar, so a[i][j] = sqrtvar[j]. -/
def aMat (f : FP → FP) (cov : Mat) (t n : ℕ) : Mat :=
  mkMat n n (fun _ j => (sqrtvarV f cov t n).getD j FP.nan)

/-- The product a * a.T with entries sqrtvar[i] * sqrtvar[j]. -/
def aaT (f : FP → FP) (cov : Mat) (t n : ℕ) : Mat :=
  hadMul (aMat f cov t n) (trM (aMat f cov t n) n) n n

/-- Line 473: rho = (sum(sum(sample / (a * a.T))) - n) / (n * (n - 1)).
The divisor is a Python integer, so for n <= 1 the numpy scalar divided
by the integer 0 warns and yields nan or an infinity (no exception). -/
def rhoS (f : FP → FP) (cov : Mat) (t n : ℕ) : FP :=
  ((pySumSum (hadDiv (sampleM cov t n) (aaT f cov t n) n n) n).sub (FP.fin n)).div
    (FP.fin ((n : ℚ) * ((n : ℚ) - 1)))

/-- Lines 475-476: prior = rho * (a * a.T) followed by the boolean-mask
assignment prior[np.eye(t, n) == 1] = var.  The mask has shape t-by-n
while prior is n-by-n, so numpy raises IndexError unless t = n; when
t = n the mask selects the diagonal and the assignment restores var. -/
def priorM (f : FP → FP) (cov : Mat) (t n : ℕ) : Except PyErr Mat :=
  if t = n then
    .ok (mkMat n n (fun i j =>
      if i = j then (varV cov t n).getD i FP.nan
      else ent (smulMat (rhoS f cov t n) (aaT f cov t n) n n) i j))
  else .error .indexError

/-- Line 480: c = np.linalg.norm(sample - prior, fro) ** 2, computed
exactly as the sum of the squared entries of sample - prior (the
Frobenius norm squared). -/
def cS (cov : Mat) (t n : ℕ) (prior : Mat) : FP :=
  pySumSum (sqM (matSub (sampleM cov t n) prior n n)) n

/-- Line 481: y = cov ** 2.0 on the demeaned matrix. -/
def yM (cov : Mat) (t n : ℕ) : Mat := sqM (demeanM cov t n)

/-- Line 482: p = (1.0/t) * sum(sum(np.dot(y.T, y))) - sum(sum(sample ** 2.0)). -/
def pS (cov : Mat) (t n : ℕ) : FP :=
  ((FP.fin (1 / (t : ℚ))).mul (pySumSum (mmT (yM cov t n) (yM cov t n) n) n)).sub
    (pySumSum (sqM (sampleM cov t n)) n)

/-- Line 483: rdiag = (1.0/t) * sum(sum(y ** 2.0)) - sum(var ** 2.0). -/
def rdiagS (cov : Mat) (t n : ℕ) : FP :=
  ((FP.fin (1 / (t : ℚ))).mul (pySumSum (sqM (yM cov t n)) n)).sub
    (fpSum ((varV cov t n).map (fun x => x.mul x)))

/-- Line 484: v = np.dot((cov ** 3.0).T, cov) / t - ((var * sample).T).
The broadcast var * sample multiplies column j of sample by var[j];
the transpose then has entry (i, j) equal to var[i] * sample[j][i]. -/
def vRaw (cov : Mat) (t n : ℕ) : Mat :=
  matSub (matDivScalar (mmT (cubeM (demeanM cov t n)) (demeanM cov t n) n) (FP.fin t) n n)
    (trM (mkMat n n (fun i j => ((varV cov t n).getD j FP.nan).mul (ent (sampleM cov t n) i j))) n)
    n n

/-- Line 485: v[np.eye(t, n) == 1] = 0.0, the same t-by-n boolean mask
on an n-by-n matrix: IndexError unless t = n, else zero the diagonal. -/
def vM (cov : Mat) (t n : ℕ) : Except PyErr Mat :=
  if t = n then
    .ok (mkMat n n (fun i j => if i = j then FP.fin 0 else ent (vRaw cov t n) i j))
  else .error .indexError

/-- Line 486: roff = sum(sum(v * (a / a.T))). -/
def roffS (f : FP → FP) (cov : Mat) (t n : ℕ) (v : Mat) : FP :=
  pySumSum (hadMul v (hadDiv (aMat f cov t n) (trM (aMat f cov t n) n) n n) n n) n

/-- Line 487: r = rdiag + np.dot(rho, roff). -/
def rS (f : FP → FP) (cov : Mat) (t n : ℕ) (v : Mat) : FP :=
  (rdiagS cov t n).add ((rhoS f cov t n).mul (roffS f cov t n v))

/-- Lines 490-491: k = (p - r) / c and
shrinkage = max(0.0, min(1.0, k / t)), with Python min and max.  When
c = 0 the division is a numpy float division by zero giving nan or an
infinity, and min(1.0, nan) = 1.0, so the nan case clamps to 1.0. -/
def shrinkScalar (f : FP → FP) (cov : Mat) (t n : ℕ) (prior v : Mat) : FP :=
  pymax (FP.fin 0)
    (pymin (FP.fin 1) ((((pS cov t n).sub (rS f cov t n v)).div (cS cov t n prior)).div (FP.fin t)))

/-- Line 492: sigma = np.dot(shrinkage, prior) + np.dot(1 - shrinkage, sample). -/
def sigmaM (cov : Mat) (t n : ℕ) (prior : Mat) (shr : FP) : Mat :=
  matAdd (smulMat shr prior n n) (smulMat ((FP.fin 1).sub shr) (sampleM cov t n) n n) n n

/-- Lines 463-494 as a whole, on the raw data matrix.  The only Python
exceptions on this path are ZeroDivisionError at line 467 when t = 0
(1.0 / t with the integer t) and IndexError at lines 476 and 485 when
t differs from n. -/
def shrunkPipeline (f : FP → FP) (dataq : List (List ℚ)) : Except PyErr (Mat × FP) :=
  if dataq.length = 0 then .error .zeroDivisionError
  else
    match priorM f (dataq.map (fun r => r.map FP.fin)) dataq.length (dataq.headD []).length,
        vM (dataq.map (fun r => r.map FP.fin)) dataq.length (dataq.headD []).length with
    | .ok prior, .ok v =>
        .ok
          (sigmaM (dataq.map (fun r => r.map FP.fin)) dataq.length (dataq.headD []).length prior
            (shrinkScalar f (dataq.map (fun r => r.map FP.fin)) dataq.length
              (dataq.headD []).length prior v),
          shrinkScalar f (dataq.map (fun r => r.map FP.fin)) dataq.length
            (dataq.headD []).length prior v)
    | .error e, _ => .error e
    | .ok _, .error e => .error e

/-- portfolio.py lines 432-494, get_shrunk_covariance_matrix(x, shrink).
The None check and the type check (lines 447-455) accept DataFrame and
ndarray; the reads x.index and x.columns (lines 460-461) then raise
AttributeError for every ndarray before any computation.  The shrink
argument is dead code: lines 457-458 assign it to shrinkage, but line
491 unconditionally reassigns shrinkage before its first use, so the
result never depends on shrink. -/
def get_shrunk_covariance_matrix (f : FP → FP) (x : PyObj) (shrink : Option FP) :
    Except PyErr (OutFrame × FP) :=
  match x, shrink with
  | .pynone, _ => .error .valueError
  | .otherObj, _ => .error .valueError
  | .ndarray _, _ => .error .attributeError
  | .dframe d, _ =>
      (shrunkPipeline f d.data).map (fun ms => (⟨d.index, d.columns, ms.1⟩, ms.2))

/-! ## Sample covariance (portfolio.py lines 416-430) -/

/-- A DataFrame of historic returns: dates by rows, one column per
ticker, with missing entries (pandas NaN) as none. -/
structure Panel where
  columns : List String
  rows : List (List (Option ℚ))
deriving DecidableEq, Repr

/-- pandas DataFrame.dropna(): keep only the rows in which every
column has a value. -/
def dropna (p : Panel) : List (List (Option ℚ)) :=
  p.rows.filter (fun r => r.all Option.isSome)

/-- The j-th column of a row-major rational table, as a list. -/
def colVal (rows : List (List ℚ)) (j : ℕ) : List ℚ :=
  rows.map (fun r => r.getD j 0)

/-- np.cov(frame, rowvar=0) on a T-by-k table: each column is one
variable; numpy computes the column means, subtracts them, and divides
the deviation products by fact = max(T - 1, 0) (numpy clamps the
divisor at zero, so T = 1 gives a 0 / 0 = nan matrix rather than an
exception).  All arithmetic is numpy float arithmetic. -/
def npcovM (rows : List (List ℚ)) (k : ℕ) : Mat :=
  let T := rows.length
  let fact : ℚ := ((T - 1 : ℕ) : ℚ)
  let meanF : ℕ → FP := fun j => (FP.fin (colVal rows j).sum).div (FP.fin T)
  mkMat k k (fun i j =>
    (fpSum (rows.map (fun r =>
      ((FP.fin (r.getD i 0)).sub (meanF i)).mul ((FP.fin (r.getD j 0)).sub (meanF j))))).div
      (FP.fin fact))

/-- portfolio.py lines 416-430, get_covariance_matrix(historic_returns):
frame = pandas.DataFrame(historic_returns).dropna() followed by
pandas.DataFrame(np.cov(frame, rowvar=0), index=frame.columns,
columns=frame.columns).  It is a total function: no size check is
performed and no exception can be raised on tabular input. -/
def get_covariance_matrix (p : Panel) : OutFrame :=
  ⟨p.columns, p.columns,
    npcovM ((dropna p).map (fun r => r.map (fun o => o.getD 0))) p.columns.length⟩

/-- Modelled from the spec wording of section 4.2 for comparison with
the source: the (i, j) entry of the unbiased sample covariance of the
listwise-complete rows, with the mean and the Bessel divisor T - 1
written directly over the rationals. -/
def besselEntry (rows : List (List ℚ)) (i j : ℕ) : ℚ :=
  let mi := (colVal rows i).sum / ((rows.length : ℚ))
  let mj := (colVal rows j).sum / ((rows.length : ℚ))
  (rows.map (fun r => (r.getD i 0 - mi) * (r.getD j 0 - mj))).sum / ((rows.length : ℚ) - 1)

/-! ## Historic returns (portfolio.py lines 145-159) -/

/-- pandas Series.shift(offset) on a price series: the value at
position i is the price at position i - offset, and the first offset
positions hold NaN. -/
def shiftSeries (prices : List ℚ) (offset : ℕ) : List FP :=
  (List.range prices.length).map (fun i =>
    if offset ≤ i then FP.fin (prices.getD (i - offset) 0) else FP.nan)

/-- portfolio.py line 159, the body of _get_historic_returns on the
adjustedClose price column: prices / prices.shift(offset) - 1.  The
two series share the same index, so the quotient is positional; any
arithmetic with the NaN prefix of the shifted series stays NaN, and
the result has the same length as the input. -/
def get_historic_returns (prices : List ℚ) (offset : ℕ) : List FP :=
  List.zipWith (fun p s => ((FP.fin p).div s).sub (FP.fin 1)) prices (shiftSeries prices offset)

/-! ## Expected portfolio and benchmark returns (portfolio.py
lines 496-510 and 527-541) -/

/-- pandas Series multiplication of two identically-indexed labelled
series: the labelled elementwise products. -/
def seriesMul (a b : List (String × ℚ)) : List (String × ℚ) :=
  List.zipWith (fun x y => (x.1, x.2 * y.2)) a b

/-- portfolio.py lines 527-541: get_expected_portfolio_return builds
the DataFrame column port_weights * expected_returns, one product per
ticker; nothing is summed. -/
def get_expected_portfolio_return (weights returns : List (String × ℚ)) :
    List (String × ℚ) :=
  seriesMul weights returns

/-- portfolio.py lines 496-510: get_expected_benchmark_return builds
the DataFrame column bench_weights * expected_returns, one product per
ticker; nothing is summed. -/
def get_expected_benchmark_return (benchWeights returns : List (String × ℚ)) :
    List (String × ℚ) :=
  seriesMul benchWeights returns

/-- Modelled from the spec wording of section 4.4 for comparison with
the source: the weighted dot product, the sum over tickers of weight
times expected return. -/
def dotProduct (weights returns : List (String × ℚ)) : ℚ :=
  (List.zipWith (fun x y => x.2 * y.2) weights returns).sum

/-! ## Information coefficient (portfolio.py lines 361-414, 600-610) -/

/-- The configured reporting frequency. -/
inductive Freq where
  | y
  | m
  | w
  | d
deriving DecidableEq, Repr

/-- portfolio.py lines 377-384: the annualization factor f selected by
the frequency. -/
def annualizationFactor : Freq → ℕ
  | .y => 1
  | .m => 12
  | .w => 52
  | .d => 252

/-- portfolio.py lines 600-610: get_portfolio_size, the number of keys
of the holding_periods mapping. -/
def get_portfolio_size (positions : List String) : ℕ := positions.length

/-- portfolio.py line 408: ic = 1.5 / sqrt(f * N).  math.sqrt(f * N)
is zero exactly when the integer f * N is zero, and Python float
division by 0.0 raises ZeroDivisionError, so N = 0 raises (f is never
zero); otherwise the exact value 1.5 / sqrt(f * N) is returned. -/
noncomputable def informationCoefficient (fr : Freq) (N : ℕ) : Except PyErr ℝ :=
  if annualizationFactor fr * N = 0 then .error .zeroDivisionError
  else .ok (1.5 / Real.sqrt ((annualizationFactor fr * N : ℕ) : ℝ))

/-- Whether an Except value is a success. -/
def exOk {ε α : Type} : Except ε α → Bool
  | .ok _ => true
  | .error _ => false

instance {ε α : Type} [DecidableEq ε] [DecidableEq α] : DecidableEq (Except ε α) := fun x y =>
  match x, y with
  | .ok a, .ok b =>
      if h : a = b then isTrue (by rw [h]) else isFalse (fun hc => h (Except.ok.inj hc))
  | .error a, .error b =>
      if h : a = b then isTrue (by rw [h]) else isFalse (fun hc => h (Except.error.inj hc))
  | .ok _, .error _ => isFalse (fun hc => Except.noConfusion hc)
  | .error _, .ok _ => isFalse (fun hc => Except.noConfusion hc)

/-! ## Concrete inputs used by the counterexamples and witnesses -/

/-- A 2-observation, 2-asset return frame whose two columns are equal,
so every column variance is 1/4 and the sample covariance S equals the
constant-correlation prior F exactly (the gamma = 0 degenerate case of
the shrinkage estimator). -/
def degFrame : DFrame := ⟨["t0", "t1"], ["A", "B"], [[0, 0], [1, 1]]⟩

/-- The lifted data matrix of degFrame. -/
def degMat : Mat := degFrame.data.map (fun r => r.map FP.fin)

/-- A 4-observation, 4-asset return frame with every column variance 9
and two distinct pairwise covariances (-4 and -1), so S differs from F
and the shrinkage computation runs on a non-degenerate input. -/
def quadFrame : DFrame :=
  ⟨["t0", "t1", "t2", "t3"], ["A", "B", "C", "D"],
    [[1, 1, 3, -5], [1, -5, 1, 3], [-5, 3, 1, 1], [3, 1, -5, 1]]⟩

/-- The lifted data matrix of quadFrame. -/
def quadMat : Mat := quadFrame.data.map (fun r => r.map FP.fin)

/-- A two-ticker panel in which only one row is complete: ticker B is
missing on the first date. -/
def onePanel : Panel := ⟨["A", "B"], [[some 1, none], [some 2, some 3]]⟩

/-- A complete three-row, two-ticker panel of returns. -/
def smallPanel : Panel :=
  ⟨["A", "B"], [[some 1, some 2], [some 2, some 4], [some 4, some 5]]⟩

/-- The same three rows as a raw rational table. -/
def smallRows : List (List ℚ) := [[1, 2], [2, 4], [4, 5]]

/-- A two-ticker weight vector: A holds 0.8 and B holds 0.2. -/
def wVec : List (String × ℚ) := [("A", 4/5), ("B", 1/5)]

/-- A two-ticker expected-return vector: 10 percent for A and 20
percent for B. -/
def rVec : List (String × ℚ) := [("A", 1/10), ("B", 1/5)]

/-! ## Arithmetic and list lemmas -/

theorem FP.add_fin (a b : ℚ) : (FP.fin a).add (FP.fin b) = FP.fin (a + b) := rfl

theorem FP.mul_fin (a b : ℚ) : (FP.fin a).mul (FP.fin b) = FP.fin (a * b) := rfl

theorem FP.sub_fin (a b : ℚ) : (FP.fin a).sub (FP.fin b) = FP.fin (a - b) := by
  simp [FP.sub, FP.neg, FP.add, sub_eq_add_neg]

theorem FP.div_fin (a b : ℚ) (hb : b ≠ 0) : (FP.fin a).div (FP.fin b) = FP.fin (a / b) := by
  simp [FP.div, hb]

theorem fpSum_foldl_fin {α : Type} (g : α → ℚ) (l : List α) (c : ℚ) :
    (l.map (fun x => FP.fin (g x))).foldl FP.add (FP.fin c) = FP.fin (c + (l.map g).sum) := by
  induction l generalizing c with
  | nil => simp
  | cons a tl ih =>
      simp only [List.map_cons, List.foldl_cons, FP.add_fin, ih, List.sum_cons]
      congr 1
      ring

theorem fpSum_map_fin {α : Type} (g : α → ℚ) (l : List α) :
    fpSum (l.map (fun x => FP.fin (g x))) = FP.fin ((l.map g).sum) := by
  simpa using fpSum_foldl_fin g l 0

theorem getD_map_range {α : Type} (g : ℕ → α) {n i : ℕ} (h : i < n) (d : α) :
    ((List.range n).map g).getD i d = g i := by
  rw [List.getD_eq_getElem _ _ (by simpa using h)]
  simp

theorem getD_map_of_lt {α β : Type} (f : α → β) (l : List α) {i : ℕ} (h : i < l.length)
    (d : β) (e : α) : (l.map f).getD i d = f (l.getD i e) := by
  rw [List.getD_eq_getElem _ _ (by simpa using h), List.getD_eq_getElem _ _ h]
  simp

theorem ent_mkMat {n m : ℕ} (f : ℕ → ℕ → FP) {i j : ℕ} (hi : i < n) (hj : j < m) :
    ent (mkMat n m f) i j = f i j := by
  simp only [ent, mkMat]
  rw [getD_map_range _ hi, getD_map_range _ hj]

theorem mkMat_congrAll {n m : ℕ} {f g : ℕ → ℕ → FP} (h : ∀ i j, f i j = g i j) :
    mkMat n m f = mkMat n m g := by
  have : f = g := funext fun i => funext fun j => h i j
  rw [this]

theorem mkMat_congr {n m : ℕ} {f g : ℕ → ℕ → FP} (h : ∀ i < n, ∀ j < m, f i j = g i j) :
    mkMat n m f = mkMat n m g := by
  simp only [mkMat]
  refine List.map_congr_left fun i hi => List.map_congr_left fun j hj => ?_
  exact h i (List.mem_range.mp hi) j (List.mem_range.mp hj)

theorem zip_self {α : Type} (l : List α) : l.zip l = l.map (fun x => (x, x)) := by
  induction l with
  | nil => rfl
  | cons a tl ih => simp [List.zip_cons_cons, ih, List.zip]

/-- The Python expression max(0.0, min(1.0, x)) always produces a
finite value in the closed interval from 0 to 1, whatever float x is:
min(1.0, nan) keeps 1.0 because nan < 1.0 is false, min(1.0, +inf)
keeps 1.0, and -inf is lifted to 0.0 by the outer max. -/
theorem clamp01_shape (x : FP) :
    ∃ q : ℚ, pymax (FP.fin 0) (pymin (FP.fin 1) x) = FP.fin q ∧ 0 ≤ q ∧ q ≤ 1 := by
  cases x with
  | fin q =>
      by_cases h1 : q < 1
      · by_cases h0 : 0 < q
        · exact ⟨q, by simp [pymin, pymax, FP.lt, h1, h0], le_of_lt h0, le_of_lt h1⟩
        · exact ⟨0, by simp [pymin, pymax, FP.lt, h1, h0], le_refl 0, by norm_num⟩
      · exact ⟨1, by norm_num [pymin, pymax, FP.lt, h1], by norm_num, le_refl 1⟩
  | nan => exact ⟨1, by norm_num [pymin, pymax, FP.lt], by norm_num, le_refl 1⟩
  | pinf => exact ⟨1, by norm_num [pymin, pymax, FP.lt], by norm_num, le_refl 1⟩
  | ninf => exact ⟨0, by norm_num [pymin, pymax, FP.lt], le_refl 0, by norm_num⟩

/-- Every successful run of the pipeline returns the clamped shrinkage
scalar as its second component. -/
theorem shrunkPipeline_ok_snd (f : FP → FP) (dataq : List (List ℚ)) (ms : Mat × FP)
    (h : shrunkPipeline f dataq = .ok ms) :
    ∃ prior v, ms.2 = shrinkScalar f (dataq.map (fun r => r.map FP.fin)) dataq.length
      (dataq.headD []).length prior v := by
  unfold shrunkPipeline at h
  split at h
  · exact absurd h (by simp)
  · split at h
    · rename_i prior v _ _
      exact ⟨prior, v, by simpa using congrArg Prod.snd (Except.ok.inj h).symm⟩
    · exact absurd h (by simp)
    · exact absurd h (by simp)

/-- seriesMul keeps the labels of its first argument when the inputs
have matching lengths. -/
theorem seriesMul_map_fst (w r : List (String × ℚ)) (hlen : r.length = w.length) :
    (seriesMul w r).map Prod.fst = w.map Prod.fst := by
  induction w generalizing r with
  | nil => simp [seriesMul]
  | cons a tl ih =>
      cases r with
      | nil => simp at hlen
      | cons b tr =>
          simp only [seriesMul, List.zipWith_cons_cons, List.map_cons, List.cons.injEq]
          exact ⟨trivial, by simpa [seriesMul] using ih tr (by simpa using hlen)⟩

/-- A nonsquare nonempty data matrix makes the pipeline fail with
IndexError at the first boolean-mask assignment. -/
theorem shrunkPipeline_nonsquare (f : FP → FP) (dataq : List (List ℚ))
    (ht : dataq.length ≠ 0) (hne : dataq.length ≠ (dataq.headD []).length) :
    shrunkPipeline f dataq = .error .indexError := by
  unfold shrunkPipeline
  rw [if_neg ht]
  have h1 : priorM f (dataq.map (fun r => r.map FP.fin)) dataq.length
      (dataq.headD []).length = .error .indexError := by
    unfold priorM; rw [if_neg hne]
  have h2 : vM (dataq.map (fun r => r.map FP.fin)) dataq.length
      (dataq.headD []).length = .error .indexError := by
    unfold vM; rw [if_neg hne]
  rw [h1, h2]

/-- Reading back a some-wrapped row with getD is the identity. -/
theorem map_some_getD (r : List ℚ) :
    List.map ((fun o : Option ℚ => o.getD 0) ∘ some) r = r := by
  induction r with
  | nil => rfl
  | cons a tl ih => simp [Function.comp, ih]

/-- Shared reduction: a fold-sum over a list of finite values whose
shape is a map of fin is the fin of the rational sum. -/
theorem fpSum_congr_fin {α : Type} (l : List α) (F : α → FP) (g : α → ℚ)
    (h : ∀ a ∈ l, F a = FP.fin (g a)) :
    fpSum (l.map F) = FP.fin ((l.map g).sum) := by
  rw [List.map_congr_left h]
  exact fpSum_map_fin g l

/-- np.cov with two or more rows computes exactly the Bessel-corrected
sample covariance of the columns, entry by entry, in exact rational
arithmetic. -/
theorem npcovM_eq_bessel (rows : List (List ℚ)) (k : ℕ) (hT : 2 ≤ rows.length) :
    npcovM rows k = mkMat k k (fun i j => FP.fin (besselEntry rows i j)) := by
  have hT0 : ((rows.length : ℚ)) ≠ 0 := Nat.cast_ne_zero.mpr (by omega)
  have hT1 : (((rows.length - 1 : ℕ) : ℚ)) ≠ 0 := Nat.cast_ne_zero.mpr (by omega)
  have hcast : (((rows.length - 1 : ℕ)) : ℚ) = (rows.length : ℚ) - 1 := by
    rw [Nat.cast_sub (by omega)]
    norm_num
  unfold npcovM besselEntry
  apply mkMat_congrAll
  intro i j
  have hmean : ∀ a : ℕ, (FP.fin (colVal rows a).sum).div (FP.fin (rows.length : ℚ)) =
      FP.fin ((colVal rows a).sum / (rows.length : ℚ)) := fun a => FP.div_fin _ _ hT0
  simp only [hmean, FP.sub_fin, FP.mul_fin]
  rw [fpSum_congr_fin rows _
    (fun r => (r.getD i 0 - (colVal rows i).sum / (rows.length : ℚ)) *
      (r.getD j 0 - (colVal rows j).sum / (rows.length : ℚ))) (fun a _ => rfl)]
  rw [FP.div_fin _ _ hT1, hcast]

/-- The column mean computed by the shrinkage pipeline on a lifted
rational table is the finite rational column mean. -/
theorem colMeanF_lifted (rows : List (List ℚ)) (k : ℕ)
    (hrect : ∀ r ∈ rows, r.length = k) (hT0 : ((rows.length : ℚ)) ≠ 0)
    {a : ℕ} (ha : a < k) :
    colMeanF (rows.map (fun r => r.map FP.fin)) rows.length a =
      FP.fin ((colVal rows a).sum / (rows.length : ℚ)) := by
  unfold colMeanF
  rw [List.map_map]
  rw [fpSum_congr_fin rows _ (fun r => r.getD a 0) ?hpt]
  · exact FP.div_fin _ _ hT0
  case hpt =>
    intro r hr
    simp only [Function.comp_apply]
    exact getD_map_of_lt FP.fin r (by rw [hrect r hr]; exact ha) FP.nan 0

/-- Entry a of a demeaned lifted row is the finite rational deviation
from the column mean. -/
theorem demean_row_entry (rows : List (List ℚ)) (k : ℕ)
    (hrect : ∀ r ∈ rows, r.length = k) (hT0 : ((rows.length : ℚ)) ≠ 0)
    {a : ℕ} (ha : a < k) (r : List ℚ) (hr : r ∈ rows) :
    ((List.range k).map (fun b => (((r.map FP.fin).getD b FP.nan)).sub
        (colMeanF (rows.map (fun rr => rr.map FP.fin)) rows.length b))).getD a FP.nan =
      FP.fin (r.getD a 0 - (colVal rows a).sum / (rows.length : ℚ)) := by
  rw [getD_map_range _ ha]
  rw [getD_map_of_lt FP.fin r (by rw [hrect r hr]; exact ha) FP.nan 0]
  rw [colMeanF_lifted rows k hrect hT0 ha]
  exact FP.sub_fin _ _

/-! ## The claims -/

/-- C1: the claim says an explicitly supplied shrink value bypasses the
shrinkage-intensity estimation and is used as the intensity (s = 1
giving F and s = 0 giving S).  The code does no such thing: line 491
unconditionally overwrites the shrinkage variable assigned from the
shrink argument at lines 457-458, so the result never depends on
shrink.  First conjunct: supplying any s gives the same result as
supplying nothing.  Remaining conjuncts: on the quadFrame input with
shrink = 0 the code returns the prior F with estimated intensity 1,
and F differs from the internal sample covariance S that shrink = 0
was supposed to select. -/
theorem c1_supplied_shrinkage_ignored :
    (∀ (f : FP → FP) (x : PyObj) (s : FP),
        get_shrunk_covariance_matrix f x (some s) = get_shrunk_covariance_matrix f x none) ∧
    get_shrunk_covariance_matrix exactSqrt (.dframe quadFrame) (some (FP.fin 0)) =
      .ok (⟨["t0", "t1", "t2", "t3"], ["A", "B", "C", "D"],
        [[FP.fin 9, FP.fin (-3), FP.fin (-3), FP.fin (-3)],
         [FP.fin (-3), FP.fin 9, FP.fin (-3), FP.fin (-3)],
         [FP.fin (-3), FP.fin (-3), FP.fin 9, FP.fin (-3)],
         [FP.fin (-3), FP.fin (-3), FP.fin (-3), FP.fin 9]]⟩, FP.fin 1) ∧
    sampleM quadMat 4 4 ≠
      [[FP.fin 9, FP.fin (-3), FP.fin (-3), FP.fin (-3)],
       [FP.fin (-3), FP.fin 9, FP.fin (-3), FP.fin (-3)],
       [FP.fin (-3), FP.fin (-3), FP.fin 9, FP.fin (-3)],
       [FP.fin (-3), FP.fin (-3), FP.fin (-3), FP.fin 9]] := by
  refine ⟨fun f x s => by cases x <;> rfl, ?_, ?_⟩ <;> decide

/-- C2 counterexample: get_expected_portfolio_return and
get_expected_benchmark_return return the labelled per-ticker products
of weight and expected return, not the single scalar dot product the
claim asserts: on the concrete two-ticker input the output column is
[0.08, 0.04] while the dot product is 0.12. -/
theorem c2_per_ticker_vector_counterexample :
    get_expected_portfolio_return wVec rVec = [("A", 2/25), ("B", 1/25)] ∧
    get_expected_benchmark_return wVec rVec = [("A", 2/25), ("B", 1/25)] ∧
    dotProduct wVec rVec = 3/25 ∧
    (get_expected_portfolio_return wVec rVec).map Prod.snd ≠ [dotProduct wVec rVec] := by
  refine ⟨?_, ?_, ?_, ?_⟩ <;> decide

/-- C2 (amended): for ticker-aligned inputs both functions return the
per-ticker column of weight times expected return, keeping the weight
labels; the scalar weighted dot product is the sum of that column, not
the returned value itself. -/
theorem c2_products_sum_to_dot (w r : List (String × ℚ))
    (h : w.map Prod.fst = r.map Prod.fst) :
    (get_expected_portfolio_return w r).map Prod.fst = w.map Prod.fst ∧
    ((get_expected_portfolio_return w r).map Prod.snd).sum = dotProduct w r ∧
    get_expected_benchmark_return w r = get_expected_portfolio_return w r := by
  refine ⟨?_, ?_, rfl⟩
  · have hlen : r.length = w.length := by
      have := congrArg List.length h
      simpa using this.symm
    exact seriesMul_map_fst w r hlen
  · simp [get_expected_portfolio_return, seriesMul, dotProduct, List.map_zipWith]

/-- C2 witness: the amended statement at the concrete two-ticker
input. -/
theorem c2_products_sum_to_dot_witness :
    (get_expected_portfolio_return wVec rVec).map Prod.fst = wVec.map Prod.fst ∧
    ((get_expected_portfolio_return wVec rVec).map Prod.snd).sum = dotProduct wVec rVec ∧
    get_expected_benchmark_return wVec rVec = get_expected_portfolio_return wVec rVec :=
  c2_products_sum_to_dot wVec rVec (by decide)

/-- C3: on every nonempty DataFrame input whose row count differs from
its column count, get_shrunk_covariance_matrix raises IndexError: the
boolean mask np.eye(t, n) of shape t-by-n cannot index the n-by-n
matrix prior at line 476. -/
theorem c3_nonsquare_fails_with_index_error (f : FP → FP) (d : DFrame) (s : Option FP)
    (ht : 1 ≤ d.data.length) (hn : 1 ≤ (d.data.headD []).length)
    (hne : d.data.length ≠ (d.data.headD []).length) :
    get_shrunk_covariance_matrix f (.dframe d) s = .error .indexError := by
  have ht0 : d.data.length ≠ 0 := by omega
  have hp := shrunkPipeline_nonsquare f d.data ht0 hne
  cases s <;>
    · show (shrunkPipeline f d.data).map _ = _
      rw [hp]
      rfl

/-- C3 witness: a concrete 2-by-3 frame fails with IndexError. -/
theorem c3_nonsquare_fails_witness :
    get_shrunk_covariance_matrix exactSqrt
      (.dframe ⟨["t0", "t1"], ["A", "B", "C"], [[1, 2, 3], [4, 5, 6]]⟩) none =
      .error .indexError :=
  c3_nonsquare_fails_with_index_error exactSqrt _ none (by decide) (by decide) (by decide)

/-- C4 counterexample: on the degenerate frame whose sample covariance
S equals the constant-correlation prior F (gamma = 0), the code does
not return shrinkage 0 as the claim asserts: k = (p - r) / c is the
float division 0.0 / 0.0 = nan, and max(0.0, min(1.0, nan)) = 1.0, so
the call succeeds with shrinkage intensity 1 (the matrix returned still
equals S because S = F here). -/
theorem c4_gamma_zero_counterexample :
    priorM exactSqrt degMat 2 2 =
      .ok [[FP.fin (1/4), FP.fin (1/4)], [FP.fin (1/4), FP.fin (1/4)]] ∧
    sampleM degMat 2 2 = [[FP.fin (1/4), FP.fin (1/4)], [FP.fin (1/4), FP.fin (1/4)]] ∧
    get_shrunk_covariance_matrix exactSqrt (.dframe degFrame) none =
      .ok (⟨["t0", "t1"], ["A", "B"],
        [[FP.fin (1/4), FP.fin (1/4)], [FP.fin (1/4), FP.fin (1/4)]]⟩, FP.fin 1) ∧
    FP.fin 1 ≠ FP.fin 0 := by
  refine ⟨?_, ?_, ?_, ?_⟩ <;> decide

/-- C4 (amended): a gamma = 0 input does not raise: the division is a
numpy float division by zero whose nan result the clamp
max(0.0, min(1.0, k/t)) maps to 1, and on every input on which the call
succeeds the returned shrinkage intensity is a finite value in the
closed interval from 0 to 1. -/
theorem c4_shrinkage_always_in_unit_interval (f : FP → FP) (x : PyObj) (s : Option FP)
    (out : OutFrame × FP) (h : get_shrunk_covariance_matrix f x s = .ok out) :
    ∃ q : ℚ, out.2 = FP.fin q ∧ 0 ≤ q ∧ q ≤ 1 := by
  cases x with
  | pynone => exact absurd h (by cases s <;> simp [get_shrunk_covariance_matrix])
  | otherObj => exact absurd h (by cases s <;> simp [get_shrunk_covariance_matrix])
  | ndarray m => exact absurd h (by cases s <;> simp [get_shrunk_covariance_matrix])
  | dframe d =>
      have h2 : (shrunkPipeline f d.data).map
          (fun ms => ((⟨d.index, d.columns, ms.1⟩ : OutFrame), ms.2)) = .ok out := by
        cases s <;> exact h
      cases hp : shrunkPipeline f d.data with
      | error e => rw [hp] at h2; exact absurd h2 (by simp [Except.map])
      | ok ms =>
          rw [hp] at h2
          have hsnd : out.2 = ms.2 := by
            simp only [Except.map, Except.ok.injEq] at h2
            rw [← h2]
          obtain ⟨prior, v, hshr⟩ := shrunkPipeline_ok_snd f d.data ms hp
          rw [hsnd, hshr]
          exact clamp01_shape _

/-- C4 witness: the interval statement applied at the degenerate
gamma = 0 frame, where the returned intensity is 1. -/
theorem c4_shrinkage_witness :
    ∃ q : ℚ, (FP.fin 1 : FP) = FP.fin q ∧ 0 ≤ q ∧ q ≤ 1 :=
  c4_shrinkage_always_in_unit_interval exactSqrt (.dframe degFrame) none
    (⟨["t0", "t1"], ["A", "B"],
      [[FP.fin (1/4), FP.fin (1/4)], [FP.fin (1/4), FP.fin (1/4)]]⟩, FP.fin 1)
    (by decide)

/-- C9: the type check of get_shrunk_covariance_matrix accepts a numpy
ndarray (ValueError is raised only for None and for other types), but
the subsequent attribute reads x.index and x.columns fail on every
ndarray with AttributeError before any shrinkage computation; a
DataFrame input, in contrast, can reach the computation and succeed. -/
theorem c9_ndarray_fails_attribute_error :
    (∀ (f : FP → FP) (m : List (List ℚ)) (s : Option FP),
        get_shrunk_covariance_matrix f (.ndarray m) s = .error .attributeError) ∧
    (∀ (f : FP → FP) (s : Option FP),
        get_shrunk_covariance_matrix f .pynone s = .error .valueError) ∧
    (∀ (f : FP → FP) (s : Option FP),
        get_shrunk_covariance_matrix f .otherObj s = .error .valueError) ∧
    exOk (get_shrunk_covariance_matrix exactSqrt
      (.dframe ⟨["t0", "t1"], ["A", "B"], [[1, 3], [3, 1]]⟩) none) = true :=
  ⟨fun f m s => by cases s <;> rfl, fun f s => by cases s <;> rfl,
    fun f s => by cases s <;> rfl, by decide⟩

/-- C5 counterexample: on a panel whose listwise-complete alignment
leaves a single row, get_covariance_matrix does not fail: it returns a
labelled matrix all of whose entries are nan (np.cov divides the zero
deviation products by the clamped divisor T - 1 = 0). -/
theorem c5_returns_nan_matrix_counterexample :
    (dropna onePanel).length = 1 ∧
    get_covariance_matrix onePanel =
      ⟨["A", "B"], ["A", "B"], [[FP.nan, FP.nan], [FP.nan, FP.nan]]⟩ := by
  refine ⟨?_, ?_⟩ <;> decide

/-- C5 (amended): whenever the row-wise dropna leaves exactly one
complete row, get_covariance_matrix raises nothing and returns the
frame labelled by the input columns whose every entry is nan. -/
theorem c5_single_complete_row_gives_nan_matrix (p : Panel)
    (h1 : (dropna p).length = 1) :
    get_covariance_matrix p =
      ⟨p.columns, p.columns,
        mkMat p.columns.length p.columns.length (fun _ _ => FP.nan)⟩ := by
  obtain ⟨r, hr⟩ := List.length_eq_one.mp h1
  unfold get_covariance_matrix npcovM
  rw [hr]
  refine congrArg (OutFrame.mk p.columns p.columns) ?_
  apply mkMat_congrAll
  intro i j
  simp only [List.map_cons, List.map_nil, List.length_cons, List.length_nil, colVal,
    List.sum_cons, List.sum_nil, List.foldl_cons, List.foldl_nil, fpSum]
  norm_num
  rw [FP.div_fin _ _ one_ne_zero]
  simp [FP.sub_fin, FP.mul_fin, FP.add_fin, FP.div]

/-- C5 witness: the amended statement applied at the concrete panel
with one complete row. -/
theorem c5_single_complete_row_witness :
    get_covariance_matrix onePanel =
      ⟨onePanel.columns, onePanel.columns,
        mkMat onePanel.columns.length onePanel.columns.length (fun _ _ => FP.nan)⟩ :=
  c5_single_complete_row_gives_nan_matrix onePanel (by decide)

/-- C6 counterexample: the returns series of a 3-point price series at
offset 1 has length 3, not 3 - 1 = 2, and its first entry is present
as the placeholder nan, not absent: pandas shift keeps the index and
pads with NaN. -/
theorem c6_length_counterexample :
    get_historic_returns [100, 102, 101] 1 = [FP.nan, FP.fin (1/50), FP.fin (-1/102)] ∧
    (get_historic_returns [100, 102, 101] 1).length ≠ ([100, 102, 101] : List ℚ).length - 1 := by
  refine ⟨?_, ?_⟩ <;> decide

/-- C6 (amended): for a nowhere-zero price series the returns series
has the same length as the input (not length minus offset); entry i for
i at least offset equals price i divided by price (i - offset), minus
one; and the first offset entries are present as nan placeholders. -/
theorem c6_same_length_with_nan_padding (prices : List ℚ) (offset : ℕ)
    (hnz : ∀ x ∈ prices, x ≠ 0) :
    (get_historic_returns prices offset).length = prices.length ∧
    (∀ i, i < offset → i < prices.length →
      (get_historic_returns prices offset).getD i (FP.fin 0) = FP.nan) ∧
    (∀ i, offset ≤ i → i < prices.length →
      (get_historic_returns prices offset).getD i (FP.fin 0) =
        FP.fin (prices.getD i 0 / prices.getD (i - offset) 0 - 1)) := by
  have hlen : (get_historic_returns prices offset).length = prices.length := by
    simp [get_historic_returns, shiftSeries]
  refine ⟨hlen, ?_, ?_⟩
  · intro i hio hip
    rw [List.getD_eq_getElem _ _ (by rw [hlen]; exact hip)]
    simp only [get_historic_returns]
    rw [List.getElem_zipWith]
    simp only [shiftSeries, List.getElem_map, List.getElem_range]
    rw [if_neg (by omega : ¬ offset ≤ i)]
    rfl
  · intro i hoi hip
    have hq : prices.getD (i - offset) 0 ≠ 0 := by
      have hb : i - offset < prices.length := by omega
      rw [List.getD_eq_getElem _ _ hb]
      exact hnz _ (List.getElem_mem hb)
    rw [List.getD_eq_getElem _ _ (by rw [hlen]; exact hip)]
    simp only [get_historic_returns]
    rw [List.getElem_zipWith]
    simp only [shiftSeries, List.getElem_map, List.getElem_range]
    rw [if_pos hoi, FP.div_fin _ _ hq, FP.sub_fin]
    congr 1
    rw [List.getD_eq_getElem _ _ hip]

/-- C6 witness: the amended statement applied at the 3-point price
series with offset 1. -/
theorem c6_same_length_witness :
    (get_historic_returns [100, 102, 101] 1).length = ([100, 102, 101] : List ℚ).length ∧
    (∀ i, i < 1 → i < ([100, 102, 101] : List ℚ).length →
      (get_historic_returns [100, 102, 101] 1).getD i (FP.fin 0) = FP.nan) ∧
    (∀ i, 1 ≤ i → i < ([100, 102, 101] : List ℚ).length →
      (get_historic_returns [100, 102, 101] 1).getD i (FP.fin 0) =
        FP.fin (([100, 102, 101] : List ℚ).getD i 0 /
          ([100, 102, 101] : List ℚ).getD (i - 1) 0 - 1)) :=
  c6_same_length_with_nan_padding [100, 102, 101] 1 (by decide)

/-- C7: get_covariance_matrix keeps only the listwise-complete rows
(dropna drops every row with a missing entry), computes the covariance
with the Bessel divisor T - 1 over those T rows, and labels the result
by the input tickers in input order. -/
theorem c7_dropna_bessel_labels (p : Panel)
    (hrect : ∀ r ∈ p.rows, r.length = p.columns.length)
    (hT : 2 ≤ (dropna p).length) :
    dropna p = p.rows.filter (fun r => r.all Option.isSome) ∧
    get_covariance_matrix p =
      ⟨p.columns, p.columns,
        mkMat p.columns.length p.columns.length (fun i j =>
          FP.fin (besselEntry ((dropna p).map (fun r => r.map (fun o => o.getD 0))) i j))⟩ := by
  refine ⟨rfl, ?_⟩
  unfold get_covariance_matrix
  refine congrArg (OutFrame.mk p.columns p.columns) ?_
  exact npcovM_eq_bessel _ _ (by simpa using hT)

/-- C7 witness: the statement applied at a complete 3-row, 2-ticker
panel. -/
theorem c7_dropna_bessel_witness :
    dropna smallPanel = smallPanel.rows.filter (fun r => r.all Option.isSome) ∧
    get_covariance_matrix smallPanel =
      ⟨smallPanel.columns, smallPanel.columns,
        mkMat smallPanel.columns.length smallPanel.columns.length (fun i j =>
          FP.fin (besselEntry ((dropna smallPanel).map (fun r => r.map (fun o => o.getD 0)))
            i j))⟩ :=
  c7_dropna_bessel_labels smallPanel (by decide) (by decide)

/-- C8: on a complete rectangular T-by-N panel with T at least 2, the
sample covariance computed inside get_shrunk_covariance_matrix (which
divides by T) equals (T - 1) / T times the matrix returned by
get_covariance_matrix (which divides by T - 1) on the same panel. -/
theorem c8_divisor_ratio (cols : List String) (rows : List (List ℚ))
    (hrect : ∀ r ∈ rows, r.length = cols.length) (hT : 2 ≤ rows.length) :
    sampleM (rows.map (fun r => r.map FP.fin)) rows.length cols.length =
      smulMat (FP.fin (((rows.length : ℚ) - 1) / (rows.length : ℚ)))
        ((get_covariance_matrix ⟨cols, rows.map (fun r => r.map some)⟩).data)
        cols.length cols.length := by
  have hT0 : ((rows.length : ℚ)) ≠ 0 := Nat.cast_ne_zero.mpr (by omega)
  have hT1 : (rows.length : ℚ) - 1 ≠ 0 := by
    have h2 : (2 : ℚ) ≤ (rows.length : ℚ) := by exact_mod_cast hT
    linarith
  have hdrop : dropna ⟨cols, rows.map (fun r => r.map some)⟩ =
      rows.map (fun r => r.map some) := by
    unfold dropna
    refine List.filter_eq_self.mpr ?_
    intro r hr
    obtain ⟨r0, _, rfl⟩ := List.mem_map.mp hr
    simp
  have hdata : (get_covariance_matrix ⟨cols, rows.map (fun r => r.map some)⟩).data =
      npcovM rows cols.length := by
    unfold get_covariance_matrix
    simp only
    rw [hdrop, List.map_map]
    congr 1
    conv_rhs => rw [← List.map_id rows]
    refine List.map_congr_left fun r _ => ?_
    show List.map (fun o : Option ℚ => o.getD 0) (List.map some r) = r
    rw [List.map_map]
    exact map_some_getD r
  rw [hdata, npcovM_eq_bessel rows cols.length hT]
  unfold sampleM smulMat
  apply mkMat_congr
  intro i hi j hj
  have hR : ent (mkMat cols.length cols.length
      (fun i j => FP.fin (besselEntry rows i j))) i j = FP.fin (besselEntry rows i j) :=
    ent_mkMat _ hi hj
  have hL : ent (mmT (demeanM (rows.map (fun r => r.map FP.fin)) rows.length cols.length)
      (demeanM (rows.map (fun r => r.map FP.fin)) rows.length cols.length) cols.length) i j =
      FP.fin ((rows.map (fun r =>
        (r.getD i 0 - (colVal rows i).sum / (rows.length : ℚ)) *
        (r.getD j 0 - (colVal rows j).sum / (rows.length : ℚ)))).sum) := by
    unfold mmT
    rw [ent_mkMat _ hi hj]
    rw [zip_self, List.map_map]
    unfold demeanM
    rw [List.map_map, List.map_map]
    rw [fpSum_congr_fin rows _
      (fun r => (r.getD i 0 - (colVal rows i).sum / (rows.length : ℚ)) *
        (r.getD j 0 - (colVal rows j).sum / (rows.length : ℚ))) ?hpt]
    case hpt =>
      intro r hr
      simp only [Function.comp_apply]
      rw [demean_row_entry rows cols.length hrect hT0 hi r hr,
          demean_row_entry rows cols.length hrect hT0 hj r hr]
      exact FP.mul_fin _ _
  rw [hL, hR, FP.mul_fin, FP.mul_fin]
  congr 1
  simp only [besselEntry]
  field_simp
  ring

/-- C8 witness: the divisor relation at the concrete 3-row panel. -/
theorem c8_divisor_ratio_witness :
    sampleM (smallRows.map (fun r => r.map FP.fin)) smallRows.length 2 =
      smulMat (FP.fin (((smallRows.length : ℚ) - 1) / (smallRows.length : ℚ)))
        ((get_covariance_matrix ⟨["A", "B"], smallRows.map (fun r => r.map some)⟩).data)
        2 2 :=
  c8_divisor_ratio ["A", "B"] smallRows (by decide) (by decide)

/-- C10: the information coefficient is 1.5 divided by the square root
of the annualization factor (1, 12, 52 or 252 by frequency) times the
number of portfolio positions, and the computation fails exactly when
the portfolio is empty (N = 0 makes the divisor sqrt(f * N) zero, and
Python float division by 0.0 raises). -/
theorem c10_information_coefficient (fr : Freq) (positions : List String) :
    (informationCoefficient fr (get_portfolio_size positions) = .error .zeroDivisionError ↔
      positions = []) ∧
    (positions ≠ [] →
      informationCoefficient fr (get_portfolio_size positions) =
        .ok (1.5 / Real.sqrt ((annualizationFactor fr * positions.length : ℕ) : ℝ))) ∧
    annualizationFactor fr ∈ ([1, 12, 52, 252] : List ℕ) := by
  have hf : annualizationFactor fr ≠ 0 := by cases fr <;> simp [annualizationFactor]
  have hlen : ∀ l : List String, l ≠ [] → get_portfolio_size l ≠ 0 := by
    intro l hl
    simpa [get_portfolio_size, List.length_eq_zero] using hl
  refine ⟨⟨?_, ?_⟩, ?_, by cases fr <;> simp [annualizationFactor]⟩
  · intro h
    by_contra hne
    unfold informationCoefficient at h
    rw [if_neg (Nat.mul_ne_zero hf (hlen positions hne))] at h
    exact Except.noConfusion h
  · intro h
    subst h
    unfold informationCoefficient
    rw [if_pos (by simp [get_portfolio_size])]
  · intro hne
    unfold informationCoefficient
    rw [if_neg (Nat.mul_ne_zero hf (hlen positions hne))]
    rfl

/-- C10 witness: an empty portfolio fails with the division error, and
a 2-position monthly portfolio gets 1.5 / sqrt(12 * 2). -/
theorem c10_information_coefficient_witness :
    (informationCoefficient Freq.m (get_portfolio_size ([] : List String)) =
      .error .zeroDivisionError) ∧
    informationCoefficient Freq.m (get_portfolio_size ["A", "B"]) =
      .ok (1.5 / Real.sqrt ((annualizationFactor Freq.m *
        (["A", "B"] : List String).length : ℕ) : ℝ)) :=
  ⟨(c10_information_coefficient Freq.m []).1.mpr rfl,
   (c10_information_coefficient Freq.m ["A", "B"]).2.1 (by decide)⟩

end Covshrink
